import Mathlib

/-!
# kimicomi_series_checker: extraction and reconciliation engine

A shallow embedding of `main.go`.

Modelling conventions.

* Go strings are modelled as Lean strings (sequences of Unicode code points);
  `strings.HasPrefix`, `strings.TrimPrefix` and `strings.TrimSpace` are
  functions on the character lists.
* A Go `map[string]SeriesData` is an association list with pairwise distinct
  keys.  Assignment `m[k] = v` replaces the value in place when the key is
  present and appends the pair otherwise.  Go leaves the iteration order of a
  map unspecified; the model ranges in list order, and every statement about a
  result obtained by ranging over a map is made up to order (by membership).
* An `*html.Node` is a finite tree: node type, data, attribute list and the
  list of children (`FirstChild` / `NextSibling` chain).
* The collaborators (`html.Parse`, HTTP, S3, Slack) are parameters that give
  the outcome of each call; effects are recorded in an event trace.  Logging
  is not modelled.
-/

namespace Kimicomi

/-! ## Data model -/

/-- The Go struct `SeriesData`. -/
structure SeriesData where
  ID : String
  URL : String
  Title : String
  deriving DecidableEq, Repr

/-- A Go `map[string]SeriesData`. -/
abbrev SeriesMap := List (String × SeriesData)

/-- The assignment `m[k] = v`. -/
def mapSet : SeriesMap → String → SeriesData → SeriesMap
  | [], k, v => [(k, v)]
  | (k', v') :: m, k, v => if k' = k then (k, v) :: m else (k', v') :: mapSet m k v

/-- The lookup `v, ok := m[k]`, with `none` for `ok = false`. -/
def mapGet : SeriesMap → String → Option SeriesData
  | [], _ => none
  | (k', v') :: m, k => if k' = k then some v' else mapGet m k

/-- The test `_, exists := m[k]`. -/
def mapHas (m : SeriesMap) (k : String) : Bool := (mapGet m k).isSome

/-- The loop `for _, s := range m { result = append(result, s) }`. -/
def mapValues (m : SeriesMap) : List SeriesData :=
  m.foldl (fun result kv => result ++ [kv.2]) []

/-- The loop `for _, s := range series { m[s.ID] = s }`. -/
def mapSetAll (m : SeriesMap) (series : List SeriesData) : SeriesMap :=
  series.foldl (fun m s => mapSet m s.ID s) m

/-! ## Strings -/

/-- The predicate `unicode.IsSpace`. -/
def isSpace (c : Char) : Bool :=
  c = '\t' || c = '\n' || c = Char.ofNat 0x0B || c = Char.ofNat 0x0C || c = '\r' || c = ' '
    || c = Char.ofNat 0x85 || c = Char.ofNat 0xA0 || c = Char.ofNat 0x1680
    || (0x2000 ≤ c.toNat && c.toNat ≤ 0x200A)
    || c = Char.ofNat 0x2028 || c = Char.ofNat 0x2029 || c = Char.ofNat 0x202F
    || c = Char.ofNat 0x205F || c = Char.ofNat 0x3000

/-- The function `strings.TrimSpace`. -/
def trimSpace (s : String) : String :=
  ⟨((s.data.dropWhile isSpace).reverse.dropWhile isSpace).reverse⟩

/-- The function `strings.HasPrefix`. -/
def hasPrefix (s p : String) : Bool := p.data.isPrefixOf s.data

/-- The function `strings.TrimPrefix`. -/
def trimPrefix (s p : String) : String :=
  if hasPrefix s p then ⟨s.data.drop p.data.length⟩ else s

/-! ## Markup tree -/

/-- The Go type `html.NodeType`. -/
inductive NodeType where
  | ErrorNode | TextNode | DocumentNode | ElementNode | CommentNode | DoctypeNode | RawNode
  deriving DecidableEq, Repr

/-- The Go struct `html.Attribute`. -/
structure Attribute where
  Namespace : String
  Key : String
  Val : String
  deriving DecidableEq, Repr

/-- The Go struct `html.Node`, with the sibling chain as a list of children. -/
inductive Node where
  | mk (Typ : NodeType) (Data : String) (Attr : List Attribute) (children : List Node)

/-- The field `n.Type`. -/
def Node.Typ : Node → NodeType
  | .mk t _ _ _ => t

/-- The field `n.Data`. -/
def Node.Data : Node → String
  | .mk _ d _ _ => d

/-- The field `n.Attr`. -/
def Node.Attr : Node → List Attribute
  | .mk _ _ a _ => a

/-- The chain `n.FirstChild, .NextSibling, ...`. -/
def Node.children : Node → List Node
  | .mk _ _ _ cs => cs

mutual
/-- The closure `traverse` of `getTextContent`, with the builder as accumulator. -/
def textTraverse : Node → String → String
  | .mk t d _ cs, text =>
    textTraverseChildren cs (if t = NodeType.TextNode then text ++ d else text)
/-- The child loop of the closure `traverse` of `getTextContent`. -/
def textTraverseChildren : List Node → String → String
  | [], text => text
  | c :: cs, text => textTraverseChildren cs (textTraverse c text)
end

/-- The function `getTextContent`. -/
def getTextContent (n : Node) : String :=
  trimSpace (textTraverse n "")

/-- The attribute loop of `findTitleInNode`: some attribute is `class="title-text"`. -/
def hasTitleClass : List Attribute → Bool
  | [] => false
  | attr :: rest => if attr.Key = "class" && attr.Val = "title-text" then true else hasTitleClass rest

mutual
/-- The function `findTitleInNode`. -/
def findTitleInNode : Node → String
  | .mk t d attr cs =>
    if t = NodeType.ElementNode && d = "div" && hasTitleClass attr then
      getTextContent (.mk t d attr cs)
    else
      findTitleInChildren cs
/-- The child loop of `findTitleInNode`. -/
def findTitleInChildren : List Node → String
  | [] => ""
  | c :: cs =>
    let title := findTitleInNode c
    if title ≠ "" then title else findTitleInChildren cs
end

/-- The literal `"https://kimicomi.com/series/"`. -/
def seriesPrefix : String := "https://kimicomi.com/series/"

/-- The attribute loop of `traverse`: the value of the first `href` attribute
that starts with the series prefix, `""` when there is none. -/
def findHref : List Attribute → String
  | [] => ""
  | attr :: rest =>
    if attr.Key = "href" && hasPrefix attr.Val seriesPrefix then attr.Val else findHref rest

/-- The body of the closure `traverse` of `extractSeriesFromHTML` before its
child loop. -/
def visit (n : Node) (seriesMap : SeriesMap) : SeriesMap :=
  if n.Typ = NodeType.ElementNode && n.Data = "a" then
    let href := findHref n.Attr
    if href ≠ "" then
      let id := trimPrefix href seriesPrefix
      if id = "" then
        seriesMap
      else
        let title := findTitleInNode n
        if title ≠ "" then
          mapSet seriesMap id { ID := id, URL := href, Title := title }
        else
          seriesMap
    else
      seriesMap
  else
    seriesMap

mutual
/-- The closure `traverse` of `extractSeriesFromHTML`, with `seriesMap` passed
as state. -/
def traverse : Node → SeriesMap → SeriesMap
  | .mk t d attr cs, seriesMap =>
    traverseChildren cs (visit (.mk t d attr cs) seriesMap)
/-- The child loop of the closure `traverse` of `extractSeriesFromHTML`. -/
def traverseChildren : List Node → SeriesMap → SeriesMap
  | [], seriesMap => seriesMap
  | c :: cs, seriesMap => traverseChildren cs (traverse c seriesMap)
end

/-- The part of `extractSeriesFromHTML` after a successful `html.Parse`. -/
def extractSeriesFromDoc (doc : Node) : List SeriesData :=
  mapValues (traverse doc [])

/-- The function `extractSeriesFromHTML`, over the outcome of `html.Parse`. -/
def extractSeriesFromHTML (parse : String → Except String Node) (htmlContent : String) :
    Except String (List SeriesData) :=
  match parse htmlContent with
  | .error err => .error ("failed to parse HTML: " ++ err)
  | .ok doc => .ok (extractSeriesFromDoc doc)

/-! ## Aggregation over the partitions -/

/-- The variable `days`. -/
def days : List String := ["月", "火", "水", "木", "金", "土", "日", "その他"]

/-- The loop `for _, day := range days` of `fetchAllSeries`, over the outcome
of `fetchSeriesForDay` for each day. -/
def fetchLoop (fetchSeriesForDay : String → Except String (List SeriesData)) :
    List String → SeriesMap → Except String SeriesMap
  | [], seriesMap => .ok seriesMap
  | day :: rest, seriesMap =>
    match fetchSeriesForDay day with
    | .error err => .error ("failed to fetch series for " ++ day ++ ": " ++ err)
    | .ok series => fetchLoop fetchSeriesForDay rest (mapSetAll seriesMap series)

/-- The function `fetchAllSeries`. -/
def fetchAllSeries (fetchSeriesForDay : String → Except String (List SeriesData)) :
    Except String (List SeriesData) :=
  match fetchLoop fetchSeriesForDay days [] with
  | .error err => .error err
  | .ok seriesMap => .ok (mapValues seriesMap)

/-! ## Snapshot differ -/

/-- The function `compareSeries`. -/
def compareSeries (previous current : List SeriesData) : List SeriesData × List SeriesData :=
  let prevMap := mapSetAll [] previous
  let currMap := mapSetAll [] current
  let added := currMap.foldl
    (fun added kv => if !mapHas prevMap kv.1 then added ++ [kv.2] else added) []
  let removed := prevMap.foldl
    (fun removed kv => if !mapHas currMap kv.1 then removed ++ [kv.2] else removed) []
  (added, removed)

/-! ## Message formatter -/

/-- The call `fmt.Sprintf("* <%s|%s>\n", s.URL, s.Title)`. -/
def entityLine (s : SeriesData) : String :=
  "* <" ++ s.URL ++ "|" ++ s.Title ++ ">\n"

/-- The function `buildSlackMessage`, with the builder passed as state. -/
def buildSlackMessage (added removed : List SeriesData) : String :=
  let msg := ""
  let msg := msg ++ "キミコミ連載情報の変更を検出しました\n\n"
  let msg :=
    if added.length > 0 then
      let msg := msg ++ "*【新規連載】*\n"
      let msg := added.foldl (fun msg s => msg ++ entityLine s) msg
      msg ++ "\n"
    else msg
  let msg :=
    if removed.length > 0 then
      let msg := msg ++ "*【削除された連載】*\n"
      removed.foldl (fun msg s => msg ++ entityLine s) msg
    else msg
  msg

/-! ## One run -/

/-- The observable effects of a run. -/
inductive Event where
  | postToSlack (message : String)
  | saveCurrentData (series : List SeriesData)
  deriving DecidableEq, Repr

/-- The outcomes of the calls to the collaborators during one run.
`postToSlack k message` is the outcome of the call to `postToSlack` made after
`k` earlier calls in the same run. -/
structure Collaborators where
  initAWSConfig : Except String Unit
  fetchSeriesForDay : String → Except String (List SeriesData)
  loadPreviousData : Except String (List SeriesData)
  postToSlack : Nat → String → Except String Unit
  saveCurrentData : List SeriesData → Except String Unit

/-- The function `processSeriesCheck`: the event trace and the returned pair. -/
def processSeriesCheck (c : Collaborators) : List Event × Except String String :=
  match c.initAWSConfig with
  | .error err => ([], .error ("failed to init AWS config: " ++ err))
  | .ok _ =>
    match fetchAllSeries c.fetchSeriesForDay with
    | .error err => ([], .error ("failed to fetch series: " ++ err))
    | .ok currentSeries =>
      let previousSeries :=
        match c.loadPreviousData with
        | .error _ => []
        | .ok series => series
      let (added, removed) := compareSeries previousSeries currentSeries
      if added.length > 0 || removed.length > 0 then
        let message := buildSlackMessage added removed
        match c.postToSlack 0 message with
        | .error err =>
          ([Event.postToSlack message], .error ("failed to notify Slack: " ++ err))
        | .ok _ =>
          match c.saveCurrentData currentSeries with
          | .error err =>
            ([Event.postToSlack message, Event.saveCurrentData currentSeries],
              .error ("failed to save current data: " ++ err))
          | .ok _ =>
            ([Event.postToSlack message, Event.saveCurrentData currentSeries],
              .ok "Processing complete")
      else
        match c.saveCurrentData currentSeries with
        | .error err =>
          ([Event.saveCurrentData currentSeries], .error ("failed to save current data: " ++ err))
        | .ok _ => ([Event.saveCurrentData currentSeries], .ok "Processing complete")

/-- The number of `postToSlack` events of a trace. -/
def postCount (events : List Event) : Nat :=
  (events.filter (fun e => match e with
    | Event.postToSlack _ => true
    | Event.saveCurrentData _ => false)).length

/-- The function `alertToSlack`, after the trace `events`: one call to
`postToSlack`, whose outcome is only logged. -/
def alertToSlack (c : Collaborators) (events : List Event) (err : String) : List Event :=
  let message := "キミコミチェッカーエラー\n```" ++ err ++ "```"
  match c.postToSlack (postCount events) message with
  | .error _ => events ++ [Event.postToSlack message]
  | .ok _ => events ++ [Event.postToSlack message]

/-- The function `handler`. -/
def handler (c : Collaborators) : List Event × Except String String :=
  match processSeriesCheck c with
  | (events, .error err) => (alertToSlack c events err, .error err)
  | (events, .ok result) => (events, .ok result)

/-! ## Vocabulary of the statements -/

/-- The entity `e` occurs in `l` and no later element of `l` has the id of `e`. -/
def IsLastOf (l : List SeriesData) (e : SeriesData) : Prop :=
  ∃ pre post, l = pre ++ e :: post ∧ ∀ s ∈ post, s.ID ≠ e.ID

/-- Scenario 2 of the specification: the entity `a`. -/
def scenarioA : SeriesData := { ID := "a", URL := "https://site/series/a", Title := "A" }

/-- Scenario 2 of the specification: the entity `b`. -/
def scenarioB : SeriesData := { ID := "b", URL := "https://site/series/b", Title := "B" }

/-- Scenario 2 of the specification: the entity `c`. -/
def scenarioC : SeriesData := { ID := "c", URL := "https://site/series/c", Title := "C" }

mutual
/-- The nodes of the subtree of a node in depth-first pre-order (document
order), the node itself first. -/
def preorder : Node → List Node
  | .mk t d attr cs => .mk t d attr cs :: preorderChildren cs
/-- The nodes of the subtrees of a list of siblings in document order. -/
def preorderChildren : List Node → List Node
  | [] => []
  | c :: cs => preorder c ++ preorderChildren cs
end

/-- The concatenation, in list order, of the data of the text nodes of a list. -/
def textOf : List Node → String
  | [] => ""
  | n :: rest => (if n.Typ = NodeType.TextNode then n.Data else "") ++ textOf rest

/-- The node carries the title marker: a `div` element with an attribute
`class="title-text"`. -/
def isTitleMarker (n : Node) : Bool :=
  n.Typ = NodeType.ElementNode && n.Data = "div" && hasTitleClass n.Attr

/-- The node carries the title marker and its trimmed text is not empty. -/
def isTitled (n : Node) : Bool :=
  isTitleMarker n && getTextContent n != ""

/-- The node is an entity anchor: an `a` element with an `href` attribute that
starts with the series prefix. -/
def isEntityAnchor (n : Node) : Bool :=
  n.Typ = NodeType.ElementNode && n.Data = "a" && findHref n.Attr != ""

/-- The node is an entity anchor whose `href` is the series prefix followed by `x`. -/
def IsSeriesAnchor (n : Node) (x : String) : Prop :=
  n.Typ = NodeType.ElementNode ∧ n.Data = "a" ∧ findHref n.Attr = seriesPrefix ++ x

/-- The entity that the visit of a node writes into the map, if any. -/
def emit (n : Node) : Option SeriesData :=
  if isEntityAnchor n then
    if trimPrefix (findHref n.Attr) seriesPrefix = "" then none
    else if findTitleInNode n = "" then none
    else some
      { ID := trimPrefix (findHref n.Attr) seriesPrefix
        URL := findHref n.Attr
        Title := findTitleInNode n }
  else none

/-- A text node. -/
def textNode (data : String) : Node := .mk NodeType.TextNode data [] []

/-- An element `<div class="title-text">` with the given children. -/
def titleDiv (children : List Node) : Node :=
  .mk NodeType.ElementNode "div" [{ Namespace := "", Key := "class", Val := "title-text" }] children

/-- An element `<a href=...>` with the given children. -/
def anchorNode (href : String) (children : List Node) : Node :=
  .mk NodeType.ElementNode "a" [{ Namespace := "", Key := "href", Val := href }] children

/-- A document node with the given children. -/
def documentNode (children : List Node) : Node := .mk NodeType.DocumentNode "" [] children

/-- An anchor whose first title marker has blank text and whose second title
marker has the text `Foo`. -/
def blankFirstAnchor : Node :=
  anchorNode "https://kimicomi.com/series/x" [titleDiv [textNode "  "], titleDiv [textNode "Foo"]]

/-- An element without attributes, with the given tag and children. -/
def elementNode (tag : String) (children : List Node) : Node :=
  .mk NodeType.ElementNode tag [] children

/-- The anchor for `x1` of `nestedDoc`: its first child is a table whose only
cell holds the anchor for `x2` with the title marker `T2`, its second child is
its own title marker `T1`. -/
def nestedOuter : Node :=
  anchorNode "https://kimicomi.com/series/x1"
    [elementNode "table"
        [elementNode "tbody"
          [elementNode "tr"
            [elementNode "td"
              [anchorNode "https://kimicomi.com/series/x2" [titleDiv [textNode "T2"]]]]]],
      titleDiv [textNode "T1"]]

/-- The tree that `html.Parse` builds for the markup
`<a href=".../x1"><table><tr><td><a href=".../x2"><div class="title-text">T2</div></a>`
`</td></tr></table><div class="title-text">T1</div></a>`:
a table cell starts a new formatting scope, so the anchor for `x2` stays inside
the anchor for `x1`, in front of the title marker of the outer anchor. -/
def nestedDoc : Node :=
  documentNode
    [elementNode "html" [elementNode "head" [], elementNode "body" [nestedOuter]]]

/-- A document with two anchors at different depths, neither inside the other. -/
def twoAnchorDoc : Node :=
  documentNode
    [.mk NodeType.ElementNode "div" []
        [anchorNode "https://kimicomi.com/series/x1" [titleDiv [textNode " T1 "]]],
      anchorNode "https://kimicomi.com/series/x2"
        [.mk NodeType.ElementNode "span" [] [titleDiv [textNode "T2"]]]]

/-- A document with an anchor of empty id that contains a well-formed anchor
and is followed by another one. -/
def emptyIdDoc : Node :=
  documentNode
    [anchorNode "https://kimicomi.com/series/"
        [anchorNode "https://kimicomi.com/series/x1" [titleDiv [textNode "T1"]]],
      anchorNode "https://kimicomi.com/series/x2" [titleDiv [textNode "T2"]]]

/-- A document with a well-formed anchor for `x` followed by an anchor for `x`
without a title marker. -/
def malformedLaterDoc : Node :=
  documentNode
    [anchorNode "https://kimicomi.com/series/x" [titleDiv [textNode "Foo"]],
      anchorNode "https://kimicomi.com/series/x" []]

/-- The entity lines of a section of the report, in the words of the
specification: one line `* <url|title>` per entity, in list order. -/
def entityLines : List SeriesData → String
  | [] => ""
  | s :: rest => "* <" ++ s.URL ++ "|" ++ s.Title ++ ">\n" ++ entityLines rest

/-- The report in the words of the specification: the fixed header, the
additions section when `added` is not empty, the removals section when
`removed` is not empty. -/
def reportSpec (added removed : List SeriesData) : String :=
  "キミコミ連載情報の変更を検出しました\n\n"
    ++ (if added = [] then "" else "*【新規連載】*\n" ++ entityLines added ++ "\n")
    ++ (if removed = [] then "" else "*【削除された連載】*\n" ++ entityLines removed)

/-- Scenario 1 of the specification: the entity `abc`. -/
def scenarioAbc : SeriesData := { ID := "abc", URL := "https://site/series/abc", Title := "Foo" }

/-- The previous snapshot that `processSeriesCheck` compares with: the loaded
one, or the empty one when loading fails. -/
def previousSnapshot (c : Collaborators) : List SeriesData :=
  match c.loadPreviousData with
  | .error _ => []
  | .ok series => series

/-- The delta report that `processSeriesCheck` posts for the current snapshot. -/
def deltaReport (c : Collaborators) (currentSeries : List SeriesData) : String :=
  buildSlackMessage (compareSeries (previousSnapshot c) currentSeries).1
    (compareSeries (previousSnapshot c) currentSeries).2

/-- The text of the error alert of `alertToSlack`. -/
def alertText (err : String) : String :=
  "キミコミチェッカーエラー\n```" ++ err ++ "```"

/-- Collaborators of a run in which every fetch succeeds with the snapshot
`series` for the first day and nothing for the others, loading gives
`previous`, and posting and saving have the given outcomes. -/
def runWith (series : List SeriesData) (previous : Except String (List SeriesData))
    (post : Except String Unit) (save : Except String Unit) : Collaborators :=
  { initAWSConfig := .ok ()
    fetchSeriesForDay := fun day => if day = "月" then .ok series else .ok []
    loadPreviousData := previous
    postToSlack := fun _ _ => post
    saveCurrentData := fun _ => save }

/-- Per-partition extraction results in which the id `b` occurs on the first
two days with different titles. -/
def overlappingParts (day : String) : List SeriesData :=
  if day = "月" then [scenarioA, scenarioB]
  else if day = "火" then [{ ID := "b", URL := "https://site/series/b", Title := "B2" }, scenarioC]
  else []

/-! ## Association lists -/

theorem foldl_append_singleton_if {α β : Type} (p : α → Bool) (f : α → β) (l : List α)
    (init : List β) :
    l.foldl (fun acc x => if p x then acc ++ [f x] else acc) init
      = init ++ (l.filter p).map f := by
  induction l generalizing init with
  | nil => simp
  | cons x xs ih =>
    simp only [List.foldl_cons, ih, List.filter_cons]
    by_cases hp : p x = true <;> simp [hp]

theorem mapValues_eq (m : SeriesMap) : mapValues m = m.map Prod.snd := by
  have h := foldl_append_singleton_if (fun _ => true) (Prod.snd : String × SeriesData → SeriesData) m []
  simpa [mapValues] using h

theorem mapGet_mapSet (m : SeriesMap) (k k' : String) (v : SeriesData) :
    mapGet (mapSet m k v) k' = if k = k' then some v else mapGet m k' := by
  induction m with
  | nil => simp [mapSet, mapGet]
  | cons kv m ih =>
    obtain ⟨k0, v0⟩ := kv
    by_cases h : k0 = k
    · subst h
      by_cases h2 : k0 = k' <;> simp [mapSet, mapGet, h2]
    · by_cases h2 : k0 = k'
      · subst h2
        simp [mapSet, mapGet, h, Ne.symm h]
      · simp [mapSet, mapGet, h, h2, ih]

theorem keys_mapSet (m : SeriesMap) (k : String) (v : SeriesData) :
    (mapSet m k v).map Prod.fst
      = if k ∈ m.map Prod.fst then m.map Prod.fst else m.map Prod.fst ++ [k] := by
  induction m with
  | nil => simp [mapSet]
  | cons kv m ih =>
    obtain ⟨k0, v0⟩ := kv
    by_cases h : k0 = k
    · subst h
      simp [mapSet]
    · have h' : ¬ k = k0 := fun e => h e.symm
      by_cases hm : k ∈ m.map Prod.fst
      · simp only [mapSet, h, if_false, List.map_cons, ih, hm, if_true, List.mem_cons, or_true]
      · simp only [mapSet, h, if_false, List.map_cons, ih, hm, List.mem_cons, h', or_self,
          List.cons_append]

theorem nodup_keys_mapSet (m : SeriesMap) (k : String) (v : SeriesData)
    (h : (m.map Prod.fst).Nodup) : ((mapSet m k v).map Prod.fst).Nodup := by
  rw [keys_mapSet]
  by_cases hm : k ∈ m.map Prod.fst
  · simpa [hm] using h
  · simp only [hm, if_false]
    exact List.Nodup.append h (List.nodup_singleton k) (by simpa using hm)

theorem nodup_keys_mapSetAll (l : List SeriesData) (m : SeriesMap)
    (h : (m.map Prod.fst).Nodup) : ((mapSetAll m l).map Prod.fst).Nodup := by
  induction l generalizing m with
  | nil => simpa [mapSetAll] using h
  | cons s l ih => exact ih _ (nodup_keys_mapSet m s.ID s h)

theorem mapGet_of_mem (m : SeriesMap) (h : (m.map Prod.fst).Nodup) (k : String)
    (v : SeriesData) : (k, v) ∈ m ↔ mapGet m k = some v := by
  induction m with
  | nil => simp [mapGet]
  | cons kv m ih =>
    obtain ⟨k0, v0⟩ := kv
    simp only [List.map_cons, List.nodup_cons] at h
    by_cases hk : k0 = k
    · subst hk
      have : ∀ v, (k0, v) ∉ m := fun v hv => h.1 (List.mem_map_of_mem Prod.fst hv)
      simp [mapGet, this, eq_comm]
    · have hk' : ¬ k = k0 := fun e => hk e.symm
      simp [mapGet, hk, hk', ih h.2]

theorem mapHas_of_mem (m : SeriesMap) (k : String) (v : SeriesData) (h : (k, v) ∈ m) :
    mapHas m k = true := by
  induction m with
  | nil => simp at h
  | cons kv m ih =>
    obtain ⟨k0, v0⟩ := kv
    by_cases hk : k0 = k
    · simp [mapHas, mapGet, hk]
    · have : (k, v) ∈ m := by
        rcases List.mem_cons.1 h with h | h
        · exact absurd (congrArg Prod.fst h).symm hk
        · exact h
      simpa [mapHas, mapGet, hk] using ih this

theorem mapGet_mapSetAll (l : List SeriesData) (m : SeriesMap) (k : String) :
    mapGet (mapSetAll m l) k
      = ((l.reverse.find? (fun s => decide (s.ID = k))).or (mapGet m k)) := by
  induction l generalizing m with
  | nil => simp [mapSetAll]
  | cons s l ih =>
    have : mapSetAll m (s :: l) = mapSetAll (mapSet m s.ID s) l := rfl
    rw [this, ih, mapGet_mapSet, List.reverse_cons, List.find?_append]
    cases List.find? (fun s => decide (s.ID = k)) l.reverse with
    | some x => simp
    | none =>
      by_cases h : s.ID = k <;> simp [h]

theorem find?_reverse_eq_some (l : List SeriesData) (k : String) (e : SeriesData) :
    l.reverse.find? (fun s => decide (s.ID = k)) = some e
      ↔ e.ID = k ∧ IsLastOf l e := by
  rw [List.find?_eq_some]
  constructor
  · rintro ⟨hk, as, bs, hl, hn⟩
    have hk' : e.ID = k := by simpa using hk
    refine ⟨hk', bs.reverse, as.reverse, ?_, ?_⟩
    · have := congrArg List.reverse hl
      simpa using this
    · intro s hs
      have := hn s (List.mem_reverse.1 hs)
      simpa [hk'] using this
  · rintro ⟨hk, pre, post, hl, hn⟩
    refine ⟨by simpa using hk, post.reverse, pre.reverse, ?_, ?_⟩
    · subst hl; simp
    · intro s hs
      have := hn s (List.mem_reverse.1 hs)
      simpa [hk] using this

theorem mem_values_mapSetAll (l : List SeriesData) (e : SeriesData) :
    e ∈ mapValues (mapSetAll [] l) ↔ IsLastOf l e := by
  have hnd := nodup_keys_mapSetAll l [] (by simp)
  rw [mapValues_eq, List.mem_map]
  constructor
  · rintro ⟨⟨k, v⟩, hmem, rfl⟩
    rw [mapGet_of_mem _ hnd, mapGet_mapSetAll] at hmem
    simp only [mapGet, Option.or_none] at hmem
    exact ((find?_reverse_eq_some l k v).1 hmem).2
  · intro h
    refine ⟨(e.ID, e), ?_, rfl⟩
    rw [mapGet_of_mem _ hnd, mapGet_mapSetAll]
    simp only [mapGet, Option.or_none]
    exact (find?_reverse_eq_some l e.ID e).2 ⟨rfl, h⟩

/-! ## Snapshot differ -/

theorem isLastOf_mem (l : List SeriesData) (e : SeriesData) (h : IsLastOf l e) : e ∈ l := by
  obtain ⟨pre, post, rfl, -⟩ := h
  simp

theorem isLastOf_of_nodup (l : List SeriesData) (e : SeriesData)
    (hnd : (l.map SeriesData.ID).Nodup) : IsLastOf l e ↔ e ∈ l := by
  refine ⟨isLastOf_mem l e, fun h => ?_⟩
  obtain ⟨pre, post, rfl⟩ := List.append_of_mem h
  refine ⟨pre, post, rfl, fun s hs hid => ?_⟩
  rw [List.map_append, List.map_cons] at hnd
  have h2 := (List.nodup_append.1 hnd).2.1
  rw [List.nodup_cons] at h2
  exact h2.1 (hid ▸ List.mem_map_of_mem SeriesData.ID hs)

theorem mapHas_mapSetAll (l : List SeriesData) (k : String) :
    mapHas (mapSetAll [] l) k = true ↔ ∃ s ∈ l, s.ID = k := by
  rw [mapHas, mapGet_mapSetAll]
  simp [mapGet, List.find?_isSome]

theorem mem_diff (a b : List SeriesData) (e : SeriesData) :
    e ∈ (mapSetAll [] a).foldl
        (fun acc kv => if !mapHas (mapSetAll [] b) kv.1 then acc ++ [kv.2] else acc) []
      ↔ IsLastOf a e ∧ ∀ s ∈ b, s.ID ≠ e.ID := by
  have hnd := nodup_keys_mapSetAll a [] (by simp)
  rw [foldl_append_singleton_if (fun kv => !mapHas (mapSetAll [] b) kv.1) Prod.snd]
  simp only [List.nil_append, List.mem_map, List.mem_filter]
  constructor
  · rintro ⟨⟨k, v⟩, ⟨hmem, hnot⟩, rfl⟩
    rw [mapGet_of_mem _ hnd, mapGet_mapSetAll] at hmem
    simp only [mapGet, Option.or_none] at hmem
    obtain ⟨hk, hlast⟩ := (find?_reverse_eq_some a k v).1 hmem
    refine ⟨hlast, fun s hs hid => ?_⟩
    have : mapHas (mapSetAll [] b) k = true :=
      (mapHas_mapSetAll b k).2 ⟨s, hs, hid.trans hk⟩
    simp [this] at hnot
  · rintro ⟨hlast, hnot⟩
    refine ⟨(e.ID, e), ⟨?_, ?_⟩, rfl⟩
    · rw [mapGet_of_mem _ hnd, mapGet_mapSetAll]
      simp only [mapGet, Option.or_none]
      exact (find?_reverse_eq_some a e.ID e).2 ⟨rfl, hlast⟩
    · have : ¬ mapHas (mapSetAll [] b) e.ID = true := by
        rw [mapHas_mapSetAll]
        rintro ⟨s, hs, hid⟩
        exact hnot s hs hid
      simpa using this

theorem mem_compareSeries_added (previous current : List SeriesData) (e : SeriesData) :
    e ∈ (compareSeries previous current).1
      ↔ IsLastOf current e ∧ ∀ s ∈ previous, s.ID ≠ e.ID :=
  mem_diff current previous e

theorem mem_compareSeries_removed (previous current : List SeriesData) (e : SeriesData) :
    e ∈ (compareSeries previous current).2
      ↔ IsLastOf previous e ∧ ∀ s ∈ current, s.ID ≠ e.ID :=
  mem_diff previous current e

/-- C1: for snapshots with pairwise distinct ids, the added result is, as a set,
the entities of `current` whose id is the id of no entity of `previous`, and
the removed result is the entities of `previous` whose id is the id of no
entity of `current`. -/
theorem compareSeries_spec (previous current : List SeriesData)
    (hp : (previous.map SeriesData.ID).Nodup) (hc : (current.map SeriesData.ID).Nodup) :
    (∀ e, e ∈ (compareSeries previous current).1
        ↔ e ∈ current ∧ ∀ s ∈ previous, s.ID ≠ e.ID) ∧
    (∀ e, e ∈ (compareSeries previous current).2
        ↔ e ∈ previous ∧ ∀ s ∈ current, s.ID ≠ e.ID) := by
  constructor
  · intro e
    rw [mem_compareSeries_added, isLastOf_of_nodup current e hc]
  · intro e
    rw [mem_compareSeries_removed, isLastOf_of_nodup previous e hp]

/-- Scenario 2: previous = {a, b} and current = {b, c} give added = [c] and
removed = [a]. -/
theorem compareSeries_spec_witness :
    ([scenarioA, scenarioB].map SeriesData.ID).Nodup ∧
    ([scenarioB, scenarioC].map SeriesData.ID).Nodup ∧
    compareSeries [scenarioA, scenarioB] [scenarioB, scenarioC] = ([scenarioC], [scenarioA]) ∧
    ((∀ e, e ∈ (compareSeries [scenarioA, scenarioB] [scenarioB, scenarioC]).1
        ↔ e ∈ [scenarioB, scenarioC] ∧ ∀ s ∈ [scenarioA, scenarioB], s.ID ≠ e.ID) ∧
    (∀ e, e ∈ (compareSeries [scenarioA, scenarioB] [scenarioB, scenarioC]).2
        ↔ e ∈ [scenarioA, scenarioB] ∧ ∀ s ∈ [scenarioB, scenarioC], s.ID ≠ e.ID)) :=
  ⟨by decide, by decide, by decide,
    compareSeries_spec [scenarioA, scenarioB] [scenarioB, scenarioC] (by decide) (by decide)⟩

/-- C2: the added result of `compareSeries A B` and the removed result of
`compareSeries B A` have the same elements, and likewise the removed result
of `compareSeries A B` and the added result of `compareSeries B A`. -/
theorem compareSeries_symm (A B : List SeriesData) :
    (∀ e, e ∈ (compareSeries A B).1 ↔ e ∈ (compareSeries B A).2) ∧
    (∀ e, e ∈ (compareSeries A B).2 ↔ e ∈ (compareSeries B A).1) := by
  constructor
  · intro e
    rw [mem_compareSeries_added, mem_compareSeries_removed]
  · intro e
    rw [mem_compareSeries_added, mem_compareSeries_removed]

theorem compareSeries_self (S : List SeriesData) : compareSeries S S = ([], []) := by
  have h : (mapSetAll [] S).foldl
      (fun acc kv => if !mapHas (mapSetAll [] S) kv.1 then acc ++ [kv.2] else acc) []
        = ([] : List SeriesData) := by
    rw [foldl_append_singleton_if (fun kv => !mapHas (mapSetAll [] S) kv.1) Prod.snd]
    simp only [List.nil_append, List.map_eq_nil_iff, List.filter_eq_nil_iff]
    rintro ⟨k, v⟩ hmem
    simp [mapHas_of_mem _ k v hmem]
  simp only [compareSeries]
  rw [h]

/-! ## Strings -/

theorem hasPrefix_append (p x : String) : hasPrefix (p ++ x) p = true := by
  simp [hasPrefix, String.data_append]

theorem trimPrefix_append (p x : String) : trimPrefix (p ++ x) p = x := by
  simp [trimPrefix, hasPrefix_append, String.data_append]

theorem eq_append_of_hasPrefix (s p : String) (h : hasPrefix s p = true) :
    s = p ++ trimPrefix s p := by
  have h' : p.data <+: s.data := List.isPrefixOf_iff_prefix.1 h
  obtain ⟨t, ht⟩ := h'
  apply String.ext
  simp [trimPrefix, h, String.data_append, ← ht]

theorem mem_dropWhile_iff (p : Char → Bool) (l : List Char) :
    (∀ c ∈ l.dropWhile p, p c = true) ↔ ∀ c ∈ l, p c = true := by
  constructor
  · intro h c hc
    rw [← List.takeWhile_append_dropWhile p l, List.mem_append] at hc
    rcases hc with hc | hc
    · exact (List.mem_takeWhile_imp hc)
    · exact h c hc
  · intro h c hc
    exact h c ((List.dropWhile_sublist p).subset hc)

theorem trimSpace_eq_empty_iff (s : String) :
    trimSpace s = "" ↔ ∀ c ∈ s.data, isSpace c = true := by
  have h1 : trimSpace s = "" ↔ (trimSpace s).data = [] := by
    constructor
    · intro h; rw [h]
    · intro h; exact String.ext h
  rw [h1]
  simp only [trimSpace, List.reverse_eq_nil_iff, List.dropWhile_eq_nil_iff, List.mem_reverse]
  exact ⟨fun h c hc => (mem_dropWhile_iff isSpace s.data).1 h c hc,
    fun h c hc => (mem_dropWhile_iff isSpace s.data).2 h c hc⟩

/-! ## Markup tree -/

theorem preorder_eq (n : Node) : preorder n = n :: preorderChildren n.children := by
  cases n with
  | mk t d attr cs => simp [preorder, Node.children]

theorem mem_preorder_self (n : Node) : n ∈ preorder n := by
  rw [preorder_eq]; simp

theorem textOf_append (a b : List Node) : textOf (a ++ b) = textOf a ++ textOf b := by
  induction a with
  | nil => simp [textOf]
  | cons n a ih => simp [textOf, ih, String.append_assoc]

mutual
theorem textTraverse_eq : ∀ (n : Node) (text : String),
    textTraverse n text = text ++ textOf (preorder n)
  | .mk t d attr cs, text => by
    rw [textTraverse, preorder, textOf, textTraverseChildren_eq cs]
    by_cases h : t = NodeType.TextNode <;> simp [h, Node.Typ, Node.Data, String.append_assoc]
theorem textTraverseChildren_eq : ∀ (cs : List Node) (text : String),
    textTraverseChildren cs text = text ++ textOf (preorderChildren cs)
  | [], text => by simp [textTraverseChildren, preorderChildren, textOf]
  | c :: cs, text => by
    rw [textTraverseChildren, preorderChildren, textOf_append, textTraverseChildren_eq cs,
      textTraverse_eq c, String.append_assoc]
end

theorem getTextContent_eq (n : Node) :
    getTextContent n = trimSpace (textOf (preorder n)) := by
  rw [getTextContent, textTraverse_eq]; simp

mutual
theorem allSpace_subtree : ∀ (n : Node),
    (∀ c ∈ (textOf (preorder n)).data, isSpace c = true) →
      ∀ d ∈ preorder n, ∀ c ∈ (textOf (preorder d)).data, isSpace c = true
  | .mk t s attr cs, h, d, hd => by
    rw [preorder, List.mem_cons] at hd
    rcases hd with rfl | hd
    · exact h
    · refine allSpace_subtreeChildren cs (fun c hc => h c ?_) d hd
      rw [preorder, textOf, String.data_append, List.mem_append]
      exact Or.inr hc
theorem allSpace_subtreeChildren : ∀ (cs : List Node),
    (∀ c ∈ (textOf (preorderChildren cs)).data, isSpace c = true) →
      ∀ d ∈ preorderChildren cs, ∀ c ∈ (textOf (preorder d)).data, isSpace c = true
  | [], _, d, hd => by simp [preorderChildren] at hd
  | c0 :: cs, h, d, hd => by
    rw [preorderChildren, List.mem_append] at hd
    rw [preorderChildren, textOf_append, String.data_append] at h
    rcases hd with hd | hd
    · exact allSpace_subtree c0 (fun c hc => h c (List.mem_append.2 (Or.inl hc))) d hd
    · exact allSpace_subtreeChildren cs (fun c hc => h c (List.mem_append.2 (Or.inr hc))) d hd
end

theorem getTextContent_empty_subtree (n d : Node) (h : getTextContent n = "")
    (hd : d ∈ preorder n) : getTextContent d = "" := by
  rw [getTextContent_eq, trimSpace_eq_empty_iff] at h ⊢
  exact allSpace_subtree n h d hd

theorem isTitled_false_of_empty (n d : Node) (h : getTextContent n = "")
    (hd : d ∈ preorder n) : isTitled d = false := by
  simp [isTitled, getTextContent_empty_subtree n d h hd]

mutual
theorem findTitleInNode_eq : ∀ (n : Node),
    findTitleInNode n = match (preorder n).find? isTitled with
      | some d => getTextContent d
      | none => ""
  | .mk t s attr cs => by
    rw [findTitleInNode, preorder]
    by_cases hm : (t = NodeType.ElementNode && s = "div" && hasTitleClass attr) = true
    · rw [if_pos hm]
      by_cases he : getTextContent (.mk t s attr cs) = ""
      · have hnone : (Node.mk t s attr cs :: preorderChildren cs).find? isTitled = none := by
          rw [List.find?_eq_none]
          intro d hd
          have hd' : d ∈ preorder (.mk t s attr cs) := by rw [preorder]; exact hd
          simp [isTitled_false_of_empty _ d he hd']
        rw [hnone, he]
      · have ht : isTitled (.mk t s attr cs) = true := by
          simp only [isTitled, isTitleMarker, Node.Typ, Node.Data, Node.Attr, hm, Bool.true_and]
          simpa using he
        rw [List.find?_cons_of_pos _ ht]
    · rw [if_neg hm, findTitleInChildren_eq cs]
      have ht : ¬ isTitled (.mk t s attr cs) = true := by
        simp only [isTitled, isTitleMarker, Node.Typ, Node.Data, Node.Attr]
        simp only [Bool.not_eq_true] at hm
        simp [hm]
      rw [List.find?_cons_of_neg _ ht]
theorem findTitleInChildren_eq : ∀ (cs : List Node),
    findTitleInChildren cs = match (preorderChildren cs).find? isTitled with
      | some d => getTextContent d
      | none => ""
  | [] => by simp [findTitleInChildren, preorderChildren]
  | c :: cs => by
    rw [findTitleInChildren, preorderChildren, List.find?_append, findTitleInNode_eq c,
      findTitleInChildren_eq cs]
    cases hc : (preorder c).find? isTitled with
    | none => simp
    | some d =>
      have hd : isTitled d = true := List.find?_some hc
      have : getTextContent d ≠ "" := by
        simp only [isTitled, Bool.and_eq_true] at hd
        simpa using hd.2
      simp [this]
end

theorem seriesPrefix_append_ne (x : String) : seriesPrefix ++ x ≠ "" := by
  intro h
  have h2 := congrArg String.length h
  rw [String.length_append] at h2
  have h3 : seriesPrefix.length = 28 := by decide
  have h4 : ("" : String).length = 0 := rfl
  omega

theorem findHref_hasPrefix (attr : List Attribute) (h : findHref attr ≠ "") :
    hasPrefix (findHref attr) seriesPrefix = true := by
  induction attr with
  | nil => simp [findHref] at h
  | cons a rest ih =>
    rw [findHref] at h ⊢
    by_cases hc : (a.Key = "href" && hasPrefix a.Val seriesPrefix) = true
    · rw [if_pos hc]
      simp only [Bool.and_eq_true] at hc
      exact hc.2
    · rw [if_neg hc] at h ⊢
      exact ih h

theorem visit_eq_emit (n : Node) (m : SeriesMap) :
    visit n m = match emit n with
      | some s => mapSet m s.ID s
      | none => m := by
  simp only [visit, emit, isEntityAnchor]
  by_cases h1 : (n.Typ = NodeType.ElementNode && n.Data = "a") = true
  · by_cases h2 : findHref n.Attr = ""
    · simp [h2]
    · by_cases h3 : trimPrefix (findHref n.Attr) seriesPrefix = ""
      · simp [h3]
      · by_cases h4 : findTitleInNode n = ""
        · simp [h4]
        · simp only [Bool.and_eq_true, decide_eq_true_eq] at h1
          simp [h1, h2, h3, h4]
  · simp only [Bool.not_eq_true] at h1
    simp [h1]

theorem emit_eq_some_iff (n : Node) (e : SeriesData) :
    emit n = some e ↔
      IsSeriesAnchor n e.ID ∧ e.ID ≠ "" ∧ e.URL = seriesPrefix ++ e.ID ∧
        e.Title = findTitleInNode n ∧ findTitleInNode n ≠ "" := by
  constructor
  · intro h
    simp only [emit] at h
    by_cases h1 : isEntityAnchor n = true
    · rw [if_pos h1] at h
      by_cases h3 : trimPrefix (findHref n.Attr) seriesPrefix = ""
      · simp [h3] at h
      · by_cases h4 : findTitleInNode n = ""
        · simp [h4] at h
        · simp only [h3, h4, if_false, Option.some.injEq] at h
          subst h
          simp only [isEntityAnchor, Bool.and_eq_true, decide_eq_true_eq, bne_iff_ne] at h1
          have hp := eq_append_of_hasPrefix _ _ (findHref_hasPrefix n.Attr h1.2)
          exact ⟨⟨h1.1.1, h1.1.2, hp⟩, h3, hp, rfl, h4⟩
    · simp [h1] at h
  · rintro ⟨⟨ht, hd, hh⟩, hne, hurl, htitle, hnt⟩
    have h1 : isEntityAnchor n = true := by
      simp [isEntityAnchor, ht, hd, hh, seriesPrefix_append_ne]
    have h3 : trimPrefix (findHref n.Attr) seriesPrefix = e.ID := by
      rw [hh, trimPrefix_append]
    simp only [emit, h1, if_true, h3, hne, if_false, hnt, Option.some.injEq]
    cases e
    simp_all

theorem emit_none_of_not_anchor (n : Node) (h : isEntityAnchor n = false) : emit n = none := by
  simp [emit, h]

theorem foldl_visit (l : List Node) (m : SeriesMap) :
    l.foldl (fun m n => visit n m) m = mapSetAll m (l.filterMap emit) := by
  induction l generalizing m with
  | nil => simp [mapSetAll]
  | cons n l ih =>
    rw [List.foldl_cons, ih, visit_eq_emit]
    cases h : emit n with
    | none => simp [List.filterMap_cons, h]
    | some s => simp [List.filterMap_cons, h, mapSetAll]

mutual
theorem traverse_eq : ∀ (n : Node) (m : SeriesMap),
    traverse n m = (preorder n).foldl (fun m n => visit n m) m
  | .mk t d attr cs, m => by
    rw [traverse, preorder, List.foldl_cons, traverseChildren_eq cs]
theorem traverseChildren_eq : ∀ (cs : List Node) (m : SeriesMap),
    traverseChildren cs m = (preorderChildren cs).foldl (fun m n => visit n m) m
  | [], m => by simp [traverseChildren, preorderChildren]
  | c :: cs, m => by
    rw [traverseChildren, preorderChildren, List.foldl_append, traverse_eq c,
      traverseChildren_eq cs]
end

theorem extractSeriesFromDoc_eq (doc : Node) :
    extractSeriesFromDoc doc = mapValues (mapSetAll [] ((preorder doc).filterMap emit)) := by
  rw [extractSeriesFromDoc, traverse_eq, foldl_visit]

theorem isLastOf_filterMap (l : List Node) (e : SeriesData) :
    IsLastOf (l.filterMap emit) e ↔
      ∃ pre b post, l = pre ++ b :: post ∧ emit b = some e ∧
        ∀ c ∈ post, ∀ s, emit c = some s → s.ID ≠ e.ID := by
  constructor
  · rintro ⟨A, B, hl, hB⟩
    induction l generalizing A with
    | nil => simp at hl
    | cons n l ih =>
      rw [List.filterMap_cons] at hl
      cases hn : emit n with
      | none =>
        rw [hn] at hl
        obtain ⟨pre, b, post, rfl, hb, hpost⟩ := ih A hl
        exact ⟨n :: pre, b, post, rfl, hb, hpost⟩
      | some s =>
        rw [hn] at hl
        cases A with
        | nil =>
          simp only [List.nil_append, List.cons.injEq] at hl
          obtain ⟨rfl, hl⟩ := hl
          refine ⟨[], n, l, rfl, hn, fun c hc s' hs' => hB s' ?_⟩
          rw [← hl, List.mem_filterMap]
          exact ⟨c, hc, hs'⟩
        | cons a A =>
          simp only [List.cons_append, List.cons.injEq] at hl
          obtain ⟨pre, b, post, rfl, hb, hpost⟩ := ih A hl.2
          exact ⟨n :: pre, b, post, rfl, hb, hpost⟩
  · rintro ⟨pre, b, post, rfl, hb, hpost⟩
    refine ⟨pre.filterMap emit, post.filterMap emit, ?_, ?_⟩
    · simp [List.filterMap_append, List.filterMap_cons, hb]
    · intro s hs
      obtain ⟨c, hc, hcs⟩ := List.mem_filterMap.1 hs
      exact hpost c hc s hcs

theorem mem_extractSeriesFromDoc (doc : Node) (e : SeriesData) :
    e ∈ extractSeriesFromDoc doc ↔
      ∃ pre b post, preorder doc = pre ++ b :: post ∧ emit b = some e ∧
        ∀ c ∈ post, ∀ s, emit c = some s → s.ID ≠ e.ID := by
  rw [extractSeriesFromDoc_eq, mem_values_mapSetAll, isLastOf_filterMap]

/-! ## Title search -/

theorem findTitleInNode_of_find (n d : Node) (h : (preorder n).find? isTitled = some d) :
    findTitleInNode n = getTextContent d ∧ getTextContent d ≠ "" := by
  rw [findTitleInNode_eq, h]
  have hd : isTitled d = true := List.find?_some h
  simp only [isTitled, Bool.and_eq_true, bne_iff_ne] at hd
  exact ⟨rfl, hd.2⟩

theorem findTitleInNode_of_none (n : Node) (h : (preorder n).find? isTitled = none) :
    findTitleInNode n = "" := by
  rw [findTitleInNode_eq, h]

theorem visit_anchor (n : Node) (x : String) (m : SeriesMap) (ha : IsSeriesAnchor n x)
    (hx : x ≠ "") :
    visit n m = if findTitleInNode n = "" then m
      else mapSet m x { ID := x, URL := seriesPrefix ++ x, Title := findTitleInNode n } := by
  rw [visit_eq_emit]
  by_cases ht : findTitleInNode n = ""
  · have : emit n = none := by
      cases h : emit n with
      | none => rfl
      | some e => exact absurd ht ((emit_eq_some_iff n e).1 h).2.2.2.2
    simp [this, ht]
  · have : emit n = some { ID := x, URL := seriesPrefix ++ x, Title := findTitleInNode n } :=
      (emit_eq_some_iff n _).2 ⟨ha, hx, rfl, rfl, ht⟩
    simp [this, ht]

/-- C9 (as amended): for an entity anchor with non-empty id, the title is the
trimmed concatenation of the text nodes under the first title-marker element,
in pre-order of the anchor's subtree, whose trimmed text is not empty, and the
anchor writes its entity with that title; when no title-marker element of the
subtree has non-empty trimmed text, the title is empty and the anchor writes
nothing. -/
theorem findTitleInNode_first_nonempty (n : Node) (x : String) (m : SeriesMap)
    (ha : IsSeriesAnchor n x) (hx : x ≠ "") :
    (∀ d, (preorder n).find? isTitled = some d →
      findTitleInNode n = trimSpace (textOf (preorder d)) ∧
      trimSpace (textOf (preorder d)) ≠ "" ∧
      visit n m = mapSet m x
        { ID := x, URL := seriesPrefix ++ x, Title := trimSpace (textOf (preorder d)) }) ∧
    ((preorder n).find? isTitled = none → findTitleInNode n = "" ∧ visit n m = m) := by
  constructor
  · intro d hd
    obtain ⟨h1, h2⟩ := findTitleInNode_of_find n d hd
    rw [getTextContent_eq] at h1 h2
    refine ⟨h1, h2, ?_⟩
    rw [visit_anchor n x m ha hx, h1, if_neg h2]
  · intro hnone
    have h1 := findTitleInNode_of_none n hnone
    refine ⟨h1, ?_⟩
    rw [visit_anchor n x m ha hx, if_pos h1]

/-- The amended C9 at an anchor whose first title marker is blank: the second
marker gives the title. -/
theorem findTitleInNode_first_nonempty_witness :
    IsSeriesAnchor blankFirstAnchor "x" ∧ "x" ≠ "" ∧
    ((∀ d, (preorder blankFirstAnchor).find? isTitled = some d →
      findTitleInNode blankFirstAnchor = trimSpace (textOf (preorder d)) ∧
      trimSpace (textOf (preorder d)) ≠ "" ∧
      visit blankFirstAnchor [] = mapSet [] "x"
        { ID := "x", URL := seriesPrefix ++ "x", Title := trimSpace (textOf (preorder d)) }) ∧
    ((preorder blankFirstAnchor).find? isTitled = none →
      findTitleInNode blankFirstAnchor = "" ∧ visit blankFirstAnchor [] = [])) :=
  ⟨⟨by decide, by decide, by decide⟩, by decide,
    findTitleInNode_first_nonempty blankFirstAnchor "x" []
      ⟨by decide, by decide, by decide⟩ (by decide)⟩

/-- C9 fails as stated: the first title-marker element of the anchor's subtree
has empty trimmed text, yet the title is `Foo`, taken from a later marker, and
the anchor writes its entity. -/
theorem findTitleInNode_blank_first_counterexample :
    ((preorder blankFirstAnchor).find? isTitleMarker).map getTextContent = some "" ∧
    findTitleInNode blankFirstAnchor = "Foo" ∧
    visit blankFirstAnchor [] =
      [("x", { ID := "x", URL := "https://kimicomi.com/series/x", Title := "Foo" })] := by
  decide

/-! ## Extraction -/

mutual
theorem mem_preorder_trans : ∀ (n E a : Node), E ∈ preorder n → a ∈ preorder E → a ∈ preorder n
  | .mk t d attr cs, E, a, hE, ha => by
    rw [preorder, List.mem_cons] at hE
    rcases hE with rfl | hE
    · exact ha
    · rw [preorder, List.mem_cons]
      exact Or.inr (mem_preorderChildren_trans cs E a hE ha)
theorem mem_preorderChildren_trans : ∀ (cs : List Node) (E a : Node),
    E ∈ preorderChildren cs → a ∈ preorder E → a ∈ preorderChildren cs
  | [], E, a, hE, _ => by simp [preorderChildren] at hE
  | c :: cs, E, a, hE, ha => by
    rw [preorderChildren, List.mem_append] at hE ⊢
    rcases hE with hE | hE
    · exact Or.inl (mem_preorder_trans c E a hE ha)
    · exact Or.inr (mem_preorderChildren_trans cs E a hE ha)
end

theorem exists_isLastOf (l : List SeriesData) (s : SeriesData) (hs : s ∈ l) :
    ∃ e, e.ID = s.ID ∧ IsLastOf l e := by
  have h : (l.reverse.find? (fun t => decide (t.ID = s.ID))).isSome = true := by
    rw [List.find?_isSome]
    exact ⟨s, List.mem_reverse.2 hs, by simp⟩
  obtain ⟨e, he⟩ := Option.isSome_iff_exists.1 h
  exact ⟨e, (find?_reverse_eq_some l s.ID e).1 he⟩

theorem isSeriesAnchor_unique (n : Node) (x y : String) (hx : IsSeriesAnchor n x)
    (hy : IsSeriesAnchor n y) : x = y := by
  have h := hx.2.2.symm.trans hy.2.2
  have h2 := congrArg (fun s => trimPrefix s seriesPrefix) h
  simpa [trimPrefix_append] using h2

theorem emit_of_anchor (n : Node) (x : String) (ha : IsSeriesAnchor n x) (hx : x ≠ "")
    (ht : findTitleInNode n ≠ "") :
    emit n = some { ID := x, URL := seriesPrefix ++ x, Title := findTitleInNode n } :=
  (emit_eq_some_iff n _).2 ⟨ha, hx, rfl, rfl, ht⟩

theorem emit_none_of_empty_id (n : Node) (ha : IsSeriesAnchor n "") : emit n = none := by
  cases h : emit n with
  | none => rfl
  | some e =>
    obtain ⟨h1, h2, -⟩ := (emit_eq_some_iff n e).1 h
    exact absurd (isSeriesAnchor_unique n _ _ h1 ha) h2

theorem findTitleInNode_ne_of_any (n : Node) (h : (preorder n).any isTitled = true) :
    findTitleInNode n ≠ "" := by
  cases hf : (preorder n).find? isTitled with
  | none =>
    rw [List.find?_eq_none] at hf
    obtain ⟨d, hd, hd2⟩ := List.any_eq_true.1 h
    exact absurd hd2 (hf d hd)
  | some d =>
    obtain ⟨h1, h2⟩ := findTitleInNode_of_find n d hf
    rw [h1]; exact h2

theorem findTitleInNode_of_no_marker (n : Node) (h : (preorder n).any isTitleMarker = false) :
    findTitleInNode n = "" := by
  apply findTitleInNode_of_none
  rw [List.find?_eq_none]
  intro d hd
  have : isTitleMarker d = false := by
    by_contra hc
    have hc' : isTitleMarker d = true := by simpa using hc
    have : (preorder n).any isTitleMarker = true := List.any_eq_true.2 ⟨d, hd, hc'⟩
    rw [h] at this
    exact Bool.noConfusion this
  simp [isTitled, this]

theorem mem_extract_id_iff (doc : Node) (x : String) :
    (∃ e ∈ extractSeriesFromDoc doc, e.ID = x) ↔
      ∃ b ∈ preorder doc, ∃ s, emit b = some s ∧ s.ID = x := by
  constructor
  · rintro ⟨e, he, rfl⟩
    obtain ⟨pre, b, post, hp, hb, -⟩ := (mem_extractSeriesFromDoc doc e).1 he
    exact ⟨b, by rw [hp]; simp, e, hb, rfl⟩
  · rintro ⟨b, hb, s, hs, rfl⟩
    have hmem : s ∈ (preorder doc).filterMap emit := List.mem_filterMap.2 ⟨b, hb, hs⟩
    obtain ⟨e, he, hlast⟩ := exists_isLastOf _ s hmem
    refine ⟨e, ?_, he⟩
    rw [extractSeriesFromDoc_eq, mem_values_mapSetAll]
    exact hlast

theorem filterMap_emit_filter (l : List Node) :
    l.filterMap emit = (l.filter isEntityAnchor).filterMap emit := by
  induction l with
  | nil => rfl
  | cons n l ih =>
    by_cases h : isEntityAnchor n = true
    · rw [List.filter_cons_of_pos h, List.filterMap_cons, List.filterMap_cons, ih]
    · have h' : isEntityAnchor n = false := by simpa using h
      rw [List.filter_cons_of_neg h, List.filterMap_cons, emit_none_of_not_anchor n h', ih]

/-- C4 (as amended): in a document whose entity anchors are, in document
order, `A1` (href the series prefix followed by `x1`) and `A2` (href the
series prefix followed by `x2`), with `x1` and `x2` non-empty and distinct, at
any nesting depth and also one inside the other, the extraction returns
exactly the two entities with ids `x1` and `x2`, where the title of each is the
trimmed text `t1`, `t2` of the first title-marker element with non-empty
trimmed text in pre-order of the subtree of its anchor. -/
theorem extract_two_anchors (doc A1 A2 d1 d2 : Node) (x1 x2 t1 t2 : String)
    (hA : (preorder doc).filter isEntityAnchor = [A1, A2])
    (h1 : findHref A1.Attr = seriesPrefix ++ x1) (h2 : findHref A2.Attr = seriesPrefix ++ x2)
    (hx1 : x1 ≠ "") (hx2 : x2 ≠ "") (hne : x1 ≠ x2)
    (hd1 : (preorder A1).find? isTitled = some d1) (ht1 : getTextContent d1 = t1)
    (hd2 : (preorder A2).find? isTitled = some d2) (ht2 : getTextContent d2 = t2) :
    (extractSeriesFromDoc doc).Perm
      [{ ID := x1, URL := seriesPrefix ++ x1, Title := t1 },
        { ID := x2, URL := seriesPrefix ++ x2, Title := t2 }] := by
  have hm1 : A1 ∈ (preorder doc).filter isEntityAnchor := by rw [hA]; simp
  have hm2 : A2 ∈ (preorder doc).filter isEntityAnchor := by rw [hA]; simp
  have ha1 : isEntityAnchor A1 = true := (List.mem_filter.1 hm1).2
  have ha2 : isEntityAnchor A2 = true := (List.mem_filter.1 hm2).2
  simp only [isEntityAnchor, Bool.and_eq_true, decide_eq_true_eq] at ha1 ha2
  obtain ⟨hf1, hn1⟩ := findTitleInNode_of_find A1 d1 hd1
  obtain ⟨hf2, hn2⟩ := findTitleInNode_of_find A2 d2 hd2
  rw [ht1] at hf1 hn1
  rw [ht2] at hf2 hn2
  have e1 := emit_of_anchor A1 x1 ⟨ha1.1.1, ha1.1.2, h1⟩ hx1 (by rw [hf1]; exact hn1)
  have e2 := emit_of_anchor A2 x2 ⟨ha2.1.1, ha2.1.2, h2⟩ hx2 (by rw [hf2]; exact hn2)
  rw [hf1] at e1
  rw [hf2] at e2
  rw [extractSeriesFromDoc_eq, filterMap_emit_filter, hA]
  simp only [List.filterMap_cons, e1, e2, List.filterMap_nil, mapSetAll, List.foldl_cons,
    List.foldl_nil, mapSet, hne, if_false, mapValues, List.nil_append, List.singleton_append]
  exact List.Perm.refl _

/-- The amended C4 at a document with two anchors at different depths. -/
theorem extract_two_anchors_witness :
    (extractSeriesFromDoc twoAnchorDoc).Perm
      [{ ID := "x1", URL := seriesPrefix ++ "x1", Title := "T1" },
        { ID := "x2", URL := seriesPrefix ++ "x2", Title := "T2" }] :=
  extract_two_anchors twoAnchorDoc
    (anchorNode "https://kimicomi.com/series/x1" [titleDiv [textNode " T1 "]])
    (anchorNode "https://kimicomi.com/series/x2"
      [.mk NodeType.ElementNode "span" [] [titleDiv [textNode "T2"]]])
    (titleDiv [textNode " T1 "]) (titleDiv [textNode "T2"]) "x1" "x2" "T1" "T2"
    rfl (by decide) (by decide) (by decide) (by decide) (by decide) rfl (by decide) rfl
    (by decide)

/-- C4 fails as stated when one anchor is nested inside the other (through a
table cell) in front of the outer anchor's own title marker: the entity anchors
of the document are the outer anchor for `x1` and the inner anchor for `x2`;
the inner anchor lies in the first child of the outer anchor and its title
marker reads `T2`; the own title marker of the outer anchor is its second
child, holds no anchor and reads `T1`; and the entity extracted for `x1` has
the title `T2`. -/
theorem extract_nested_counterexample :
    ((preorder nestedDoc).filter isEntityAnchor).map (fun n => findHref n.Attr)
      = ["https://kimicomi.com/series/x1", "https://kimicomi.com/series/x2"] ∧
    nestedOuter.children.map (fun n => (preorder n).any isEntityAnchor) = [true, false] ∧
    nestedOuter.children.map isTitleMarker = [false, true] ∧
    nestedOuter.children.map getTextContent = ["T2", "T1"] ∧
    (extractSeriesFromDoc nestedDoc).Perm
      [{ ID := "x1", URL := "https://kimicomi.com/series/x1", Title := "T2" },
        { ID := "x2", URL := "https://kimicomi.com/series/x2", Title := "T2" }] ∧
    ({ ID := "x1", URL := "https://kimicomi.com/series/x1", Title := "T1" } : SeriesData)
      ∉ extractSeriesFromDoc nestedDoc := by
  decide

/-- C5: the extraction returns no entity with the empty id, an anchor whose
href is exactly the series prefix writes nothing, and every well-formed anchor
(non-empty id, a title-marker element with non-empty trimmed text in its
subtree) that is nested inside such an anchor or follows it in document order
has its id in the result. -/
theorem extract_skips_empty_id (doc : Node) :
    (∀ e ∈ extractSeriesFromDoc doc, e.ID ≠ "") ∧
    (∀ E m, IsSeriesAnchor E "" → visit E m = m) ∧
    (∀ E a x, E ∈ preorder doc → IsSeriesAnchor E "" →
      (a ∈ preorderChildren E.children ∨
        ∃ pre post, preorder doc = pre ++ E :: post ∧ a ∈ post) →
      IsSeriesAnchor a x → x ≠ "" → (preorder a).any isTitled = true →
      ∃ e ∈ extractSeriesFromDoc doc, e.ID = x) := by
  refine ⟨?_, ?_, ?_⟩
  · intro e he
    obtain ⟨pre, b, post, -, hb, -⟩ := (mem_extractSeriesFromDoc doc e).1 he
    exact ((emit_eq_some_iff b e).1 hb).2.1
  · intro E m hE
    rw [visit_eq_emit, emit_none_of_empty_id E hE]
  · intro E a x hE _ hpos ha hx ht
    have hmem : a ∈ preorder doc := by
      rcases hpos with h | ⟨pre, post, hp, h⟩
      · refine mem_preorder_trans doc E a hE ?_
        rw [preorder_eq]
        exact List.mem_cons_of_mem _ h
      · rw [hp]
        simp [h]
    rw [mem_extract_id_iff]
    exact ⟨a, hmem, _, emit_of_anchor a x ha hx (findTitleInNode_ne_of_any a ht), rfl⟩

/-- C5 at a document whose first anchor has the empty id, contains the anchor
for `x1` and is followed by the anchor for `x2`. -/
theorem extract_skips_empty_id_witness :
    (extractSeriesFromDoc emptyIdDoc).Perm
      [{ ID := "x1", URL := "https://kimicomi.com/series/x1", Title := "T1" },
        { ID := "x2", URL := "https://kimicomi.com/series/x2", Title := "T2" }] ∧
    (∃ e ∈ extractSeriesFromDoc emptyIdDoc, e.ID = "x1") ∧
    (∃ e ∈ extractSeriesFromDoc emptyIdDoc, e.ID = "x2") :=
  ⟨by decide,
    (extract_skips_empty_id emptyIdDoc).2.2
      (anchorNode "https://kimicomi.com/series/"
        [anchorNode "https://kimicomi.com/series/x1" [titleDiv [textNode "T1"]]])
      (anchorNode "https://kimicomi.com/series/x1" [titleDiv [textNode "T1"]]) "x1"
      (List.Mem.tail _ (List.Mem.head _)) ⟨by decide, by decide, by decide⟩
      (Or.inl (List.Mem.head _)) ⟨by decide, by decide, by decide⟩ (by decide) (by decide),
    (extract_skips_empty_id emptyIdDoc).2.2
      (anchorNode "https://kimicomi.com/series/"
        [anchorNode "https://kimicomi.com/series/x1" [titleDiv [textNode "T1"]]])
      (anchorNode "https://kimicomi.com/series/x2" [titleDiv [textNode "T2"]]) "x2"
      (List.Mem.tail _ (List.Mem.head _)) ⟨by decide, by decide, by decide⟩
      (Or.inr ⟨[emptyIdDoc], _, rfl, by
        repeat first
          | exact List.Mem.head _
          | apply List.Mem.tail⟩)
      ⟨by decide, by decide, by decide⟩ (by decide) (by decide)⟩

/-- C6 (as amended): an anchor with non-empty id `x` whose subtree has no
title-marker element writes nothing and removes nothing; the result has an
entity with id `x` exactly when some anchor for `x` in the document has a
non-empty title, and that entity is the one of the last such anchor in
document order. -/
theorem extract_malformed_anchor (doc a : Node) (x : String) (_ha : a ∈ preorder doc)
    (hax : IsSeriesAnchor a x) (hx : x ≠ "")
    (hno : (preorder a).any isTitleMarker = false) :
    (∀ m, visit a m = m) ∧
    ((∃ e ∈ extractSeriesFromDoc doc, e.ID = x) ↔
      ∃ b ∈ preorder doc, IsSeriesAnchor b x ∧ findTitleInNode b ≠ "") ∧
    (∀ e ∈ extractSeriesFromDoc doc, e.ID = x →
      ∃ pre b post, preorder doc = pre ++ b :: post ∧ IsSeriesAnchor b x ∧
        findTitleInNode b ≠ "" ∧
        e = { ID := x, URL := seriesPrefix ++ x, Title := findTitleInNode b } ∧
        ∀ c ∈ post, IsSeriesAnchor c x → findTitleInNode c = "") := by
  refine ⟨?_, ?_, ?_⟩
  · intro m
    rw [visit_anchor a x m hax hx, if_pos (findTitleInNode_of_no_marker a hno)]
  · rw [mem_extract_id_iff]
    constructor
    · rintro ⟨b, hb, s, hs, rfl⟩
      obtain ⟨h1, -, -, -, h5⟩ := (emit_eq_some_iff b s).1 hs
      exact ⟨b, hb, h1, h5⟩
    · rintro ⟨b, hb, hbx, ht⟩
      exact ⟨b, hb, _, emit_of_anchor b x hbx hx ht, rfl⟩
  · intro e he hid
    obtain ⟨pre, b, post, hp, hb, hpost⟩ := (mem_extractSeriesFromDoc doc e).1 he
    obtain ⟨h1, -, h3, h4, h5⟩ := (emit_eq_some_iff b e).1 hb
    rw [hid] at h1 h3
    refine ⟨pre, b, post, hp, h1, h5, ?_, ?_⟩
    · cases e
      simp only [SeriesData.mk.injEq]
      exact ⟨hid, h3, h4⟩
    · intro c hc hcx
      by_contra hne
      exact hpost c hc _ (emit_of_anchor c x hcx hx hne) hid.symm

/-- The amended C6 at a document in which a well-formed anchor for `x` is
followed by an anchor for `x` without a title marker. -/
theorem extract_malformed_anchor_witness :
    (∀ m, visit (anchorNode "https://kimicomi.com/series/x" []) m = m) ∧
    ((∃ e ∈ extractSeriesFromDoc malformedLaterDoc, e.ID = "x") ↔
      ∃ b ∈ preorder malformedLaterDoc, IsSeriesAnchor b "x" ∧ findTitleInNode b ≠ "") ∧
    (∀ e ∈ extractSeriesFromDoc malformedLaterDoc, e.ID = "x" →
      ∃ pre b post, preorder malformedLaterDoc = pre ++ b :: post ∧ IsSeriesAnchor b "x" ∧
        findTitleInNode b ≠ "" ∧
        e = { ID := "x", URL := seriesPrefix ++ "x", Title := findTitleInNode b } ∧
        ∀ c ∈ post, IsSeriesAnchor c "x" → findTitleInNode c = "") :=
  extract_malformed_anchor malformedLaterDoc (anchorNode "https://kimicomi.com/series/x" []) "x"
    (by
      repeat first
        | exact List.Mem.head _
        | apply List.Mem.tail)
    ⟨by decide, by decide, by decide⟩ (by decide) (by decide)

/-- C6 fails as stated: the second anchor for `x` has a non-empty id and no
title-marker element in its subtree, and the result still has the entity that
the first anchor for `x` wrote. -/
theorem extract_malformed_later_counterexample :
    malformedLaterDoc.children.map (fun n => findHref n.Attr)
      = ["https://kimicomi.com/series/x", "https://kimicomi.com/series/x"] ∧
    malformedLaterDoc.children.map (fun n => (preorder n).any isTitleMarker) = [true, false] ∧
    extractSeriesFromDoc malformedLaterDoc =
      [{ ID := "x", URL := "https://kimicomi.com/series/x", Title := "Foo" }] := by
  decide

/-! ## Message formatter -/

theorem foldl_entityLine (l : List SeriesData) (msg : String) :
    l.foldl (fun msg s => msg ++ entityLine s) msg = msg ++ entityLines l := by
  induction l generalizing msg with
  | nil => simp [entityLines]
  | cons s l ih =>
    rw [List.foldl_cons, ih, entityLines, entityLine]
    simp only [String.append_assoc]

/-- C8: the message is the fixed header, followed by the additions section
(heading, one line per added entity in list order, a blank line) exactly when
`added` is not empty, followed by the removals section (heading, one line per
removed entity in list order) exactly when `removed` is not empty; for the
single added entity `abc` and nothing removed it is the header, the additions
heading and the one line for `Foo`. -/
theorem buildSlackMessage_spec (added removed : List SeriesData) :
    buildSlackMessage added removed = reportSpec added removed ∧
    buildSlackMessage [scenarioAbc] [] =
      "キミコミ連載情報の変更を検出しました\n\n*【新規連載】*\n* <https://site/series/abc|Foo>\n\n" := by
  refine ⟨?_, by decide⟩
  simp only [buildSlackMessage, reportSpec, foldl_entityLine, String.empty_append]
  cases added with
  | nil =>
    cases removed with
    | nil =>
      simp only [List.length_nil, gt_iff_lt, lt_self_iff_false, if_false, if_true,
        String.append_empty]
    | cons b bs =>
      simp only [List.length_nil, List.length_cons, gt_iff_lt, lt_self_iff_false,
        Nat.zero_lt_succ, if_false, if_true, List.cons_ne_nil, String.append_assoc,
        String.append_empty, String.empty_append]
  | cons a as =>
    cases removed with
    | nil =>
      simp only [List.length_nil, List.length_cons, gt_iff_lt, lt_self_iff_false,
        Nat.zero_lt_succ, if_false, if_true, List.cons_ne_nil, String.append_assoc,
        String.append_empty]
    | cons b bs =>
      simp only [List.length_cons, gt_iff_lt, Nat.zero_lt_succ, if_false, if_true,
        List.cons_ne_nil, String.append_assoc]

/-! ## One run -/

theorem processSeriesCheck_of_fetch (c : Collaborators) (currentSeries : List SeriesData)
    (haws : c.initAWSConfig = .ok ())
    (hf : fetchAllSeries c.fetchSeriesForDay = .ok currentSeries) :
    processSeriesCheck c =
      if (compareSeries (previousSnapshot c) currentSeries).1.length > 0
          || (compareSeries (previousSnapshot c) currentSeries).2.length > 0 then
        match c.postToSlack 0 (deltaReport c currentSeries) with
        | .error err =>
          ([Event.postToSlack (deltaReport c currentSeries)],
            .error ("failed to notify Slack: " ++ err))
        | .ok _ =>
          match c.saveCurrentData currentSeries with
          | .error err =>
            ([Event.postToSlack (deltaReport c currentSeries),
                Event.saveCurrentData currentSeries],
              .error ("failed to save current data: " ++ err))
          | .ok _ =>
            ([Event.postToSlack (deltaReport c currentSeries),
                Event.saveCurrentData currentSeries],
              .ok "Processing complete")
      else
        match c.saveCurrentData currentSeries with
        | .error err =>
          ([Event.saveCurrentData currentSeries],
            .error ("failed to save current data: " ++ err))
        | .ok _ => ([Event.saveCurrentData currentSeries], .ok "Processing complete") := by
  unfold processSeriesCheck
  rw [haws, hf]
  rfl

/-- C3: comparing a snapshot with itself gives no added and no removed entity,
and a run whose fetched snapshot is the loaded previous snapshot posts nothing:
its only effect is saving the current snapshot. -/
theorem compareSeries_self_no_post (S : List SeriesData) :
    compareSeries S S = ([], []) ∧
    (∀ c : Collaborators, c.initAWSConfig = .ok () →
      fetchAllSeries c.fetchSeriesForDay = .ok S → c.loadPreviousData = .ok S →
      (processSeriesCheck c).1 = [Event.saveCurrentData S] ∧
        postCount (processSeriesCheck c).1 = 0) := by
  refine ⟨compareSeries_self S, ?_⟩
  intro c haws hf hl
  have hprev : previousSnapshot c = S := by simp [previousSnapshot, hl]
  rw [processSeriesCheck_of_fetch c S haws hf, hprev, compareSeries_self]
  simp only [List.length_nil, gt_iff_lt, lt_self_iff_false, decide_False, Bool.or_self,
    Bool.false_eq_true, if_false]
  cases c.saveCurrentData S <;> exact ⟨rfl, rfl⟩

/-- C3 at a run that fetches the snapshot it loads. -/
theorem compareSeries_self_no_post_witness :
    (processSeriesCheck (runWith [scenarioA, scenarioB] (.ok [scenarioA, scenarioB])
        (.ok ()) (.ok ()))).1 = [Event.saveCurrentData [scenarioA, scenarioB]] ∧
    postCount (processSeriesCheck (runWith [scenarioA, scenarioB]
        (.ok [scenarioA, scenarioB]) (.ok ()) (.ok ()))).1 = 0 :=
  (compareSeries_self_no_post [scenarioA, scenarioB]).2
    (runWith [scenarioA, scenarioB] (.ok [scenarioA, scenarioB]) (.ok ()) (.ok ())) rfl rfl rfl

/-- C10 (as amended): when fetching succeeds, the current snapshot is saved if
the delta is empty or the delta report is delivered; when the delta is not
empty and delivery fails, `processSeriesCheck` returns the notification error
without saving, and `handler` makes one further notification attempt, the
error alert. -/
theorem processSeriesCheck_persist (c : Collaborators) (currentSeries : List SeriesData)
    (haws : c.initAWSConfig = .ok ())
    (hf : fetchAllSeries c.fetchSeriesForDay = .ok currentSeries) :
    (compareSeries (previousSnapshot c) currentSeries = ([], []) →
      (processSeriesCheck c).1 = [Event.saveCurrentData currentSeries]) ∧
    (compareSeries (previousSnapshot c) currentSeries ≠ ([], []) →
      c.postToSlack 0 (deltaReport c currentSeries) = .ok () →
      (processSeriesCheck c).1 =
        [Event.postToSlack (deltaReport c currentSeries), Event.saveCurrentData currentSeries]) ∧
    (compareSeries (previousSnapshot c) currentSeries ≠ ([], []) →
      ∀ err, c.postToSlack 0 (deltaReport c currentSeries) = .error err →
      processSeriesCheck c =
        ([Event.postToSlack (deltaReport c currentSeries)],
          .error ("failed to notify Slack: " ++ err)) ∧
      (handler c).1 =
        [Event.postToSlack (deltaReport c currentSeries),
          Event.postToSlack (alertText ("failed to notify Slack: " ++ err))]) := by
  have hguard : compareSeries (previousSnapshot c) currentSeries ≠ ([], []) →
      ((compareSeries (previousSnapshot c) currentSeries).1.length > 0
        || (compareSeries (previousSnapshot c) currentSeries).2.length > 0) = true := by
    intro hne
    rcases hcs : compareSeries (previousSnapshot c) currentSeries with ⟨a, r⟩
    rw [hcs] at hne
    cases a with
    | nil =>
      cases r with
      | nil => exact absurd rfl hne
      | cons y ys => simp
    | cons x xs => simp
  refine ⟨?_, ?_, ?_⟩
  · intro hempty
    rw [processSeriesCheck_of_fetch c currentSeries haws hf, hempty]
    simp only [List.length_nil, gt_iff_lt, lt_self_iff_false, decide_False, Bool.or_self,
      Bool.false_eq_true, if_false]
    cases c.saveCurrentData currentSeries <;> rfl
  · intro hne hok
    rw [processSeriesCheck_of_fetch c currentSeries haws hf, if_pos (hguard hne), hok]
    cases c.saveCurrentData currentSeries <;> rfl
  · intro hne err herr
    have hp : processSeriesCheck c =
        ([Event.postToSlack (deltaReport c currentSeries)],
          .error ("failed to notify Slack: " ++ err)) := by
      rw [processSeriesCheck_of_fetch c currentSeries haws hf, if_pos (hguard hne), herr]
    refine ⟨hp, ?_⟩
    simp only [handler, hp, alertToSlack, alertText]
    cases c.postToSlack (postCount [Event.postToSlack (deltaReport c currentSeries)])
      ("キミコミチェッカーエラー\n```" ++ ("failed to notify Slack: " ++ err) ++ "```") <;> rfl

/-- The amended C10 at a run with one new entity whose report is not delivered. -/
theorem processSeriesCheck_persist_witness :
    processSeriesCheck (runWith [scenarioAbc] (.ok []) (.error "channel_not_found") (.ok ())) =
        ([Event.postToSlack (deltaReport
            (runWith [scenarioAbc] (.ok []) (.error "channel_not_found") (.ok ()))
            [scenarioAbc])],
          .error ("failed to notify Slack: " ++ "channel_not_found")) ∧
      (handler (runWith [scenarioAbc] (.ok []) (.error "channel_not_found") (.ok ()))).1 =
        [Event.postToSlack (deltaReport
            (runWith [scenarioAbc] (.ok []) (.error "channel_not_found") (.ok ()))
            [scenarioAbc]),
          Event.postToSlack (alertText ("failed to notify Slack: " ++ "channel_not_found"))] :=
  (processSeriesCheck_persist
    (runWith [scenarioAbc] (.ok []) (.error "channel_not_found") (.ok ())) [scenarioAbc]
    rfl rfl).2.2 (by decide) "channel_not_found" rfl

/-- C10 fails as stated: fetching succeeds with one new entity, delivery of
the delta report fails, and then the snapshot is not saved, the run returns
the notification error, and `handler` posts a second message, the error alert. -/
theorem processSeriesCheck_abort_counterexample :
    fetchAllSeries
        (runWith [scenarioAbc] (.ok []) (.error "channel_not_found") (.ok ())).fetchSeriesForDay
      = .ok [scenarioAbc] ∧
    compareSeries [] [scenarioAbc] = ([scenarioAbc], []) ∧
    (handler (runWith [scenarioAbc] (.ok []) (.error "channel_not_found") (.ok ()))).2
      = .error "failed to notify Slack: channel_not_found" ∧
    Event.saveCurrentData [scenarioAbc]
      ∉ (handler (runWith [scenarioAbc] (.ok []) (.error "channel_not_found") (.ok ()))).1 ∧
    postCount (handler (runWith [scenarioAbc] (.ok []) (.error "channel_not_found") (.ok ()))).1
      = 2 :=
  ⟨rfl, by decide, rfl, by decide, by decide⟩

/-! ## Aggregation over the partitions -/

theorem mapSetAll_append (m : SeriesMap) (a b : List SeriesData) :
    mapSetAll m (a ++ b) = mapSetAll (mapSetAll m a) b := by
  simp [mapSetAll, List.foldl_append]

theorem fetchLoop_ok (fetch : String → Except String (List SeriesData))
    (parts : String → List SeriesData) (ds : List String) (m : SeriesMap)
    (h : ∀ d ∈ ds, fetch d = .ok (parts d)) :
    fetchLoop fetch ds m = .ok (mapSetAll m (ds.map parts).flatten) := by
  induction ds generalizing m with
  | nil => simp [fetchLoop, mapSetAll]
  | cons d ds ih =>
    rw [fetchLoop, h d (List.mem_cons_self d ds)]
    simp only [List.map_cons, List.flatten_cons, mapSetAll_append]
    exact ih _ (fun d' hd' => h d' (List.mem_cons_of_mem d hd'))

theorem isLastOf_iff_find (l : List SeriesData) (e : SeriesData) :
    IsLastOf l e ↔ l.reverse.find? (fun s => decide (s.ID = e.ID)) = some e := by
  rw [find?_reverse_eq_some]
  simp

theorem isLastOf_append (a b : List SeriesData) (e : SeriesData) :
    IsLastOf (a ++ b) e ↔ IsLastOf b e ∨ (IsLastOf a e ∧ ∀ s ∈ b, s.ID ≠ e.ID) := by
  rw [isLastOf_iff_find, isLastOf_iff_find, isLastOf_iff_find, List.reverse_append,
    List.find?_append]
  cases hb : b.reverse.find? (fun s => decide (s.ID = e.ID)) with
  | none =>
    rw [List.find?_eq_none] at hb
    simp only [Option.none_or, false_or, reduceCtorEq]
    constructor
    · intro h
      refine ⟨h, fun s hs => ?_⟩
      simpa using hb s (List.mem_reverse.2 hs)
    · exact fun h => h.1
  | some x =>
    have hor : ∀ o : Option SeriesData, (some x).or o = some x := fun o => rfl
    rw [hor]
    simp only [Option.some.injEq]
    constructor
    · exact fun h => Or.inl h
    · rintro (h | ⟨-, h⟩)
      · exact h
      · have hx := List.find?_some hb
        have hm := List.mem_reverse.1 (List.mem_of_find?_eq_some hb)
        exact absurd (by simpa using hx) (h x hm)

theorem isLastOf_flatten (ps : List (List SeriesData)) (e : SeriesData)
    (h : IsLastOf ps.flatten e) :
    ∃ pre p post, ps = pre ++ p :: post ∧ IsLastOf p e ∧ ∀ q ∈ post, ∀ s ∈ q, s.ID ≠ e.ID := by
  induction ps with
  | nil =>
    obtain ⟨pre, post, hl, -⟩ := h
    simp at hl
  | cons p ps ih =>
    rw [List.flatten_cons, isLastOf_append] at h
    rcases h with h | ⟨h, hno⟩
    · obtain ⟨pre, q, post, rfl, hq, hpost⟩ := ih h
      exact ⟨p :: pre, q, post, rfl, hq, hpost⟩
    · refine ⟨[], p, ps, rfl, h, fun q hq s hs => hno s ?_⟩
      exact List.mem_flatten.2 ⟨q, hq, hs⟩

theorem keyed_mapSetAll (l : List SeriesData) (kv : String × SeriesData)
    (h : kv ∈ mapSetAll [] l) : kv.2.ID = kv.1 := by
  obtain ⟨k, v⟩ := kv
  have hnd := nodup_keys_mapSetAll l [] (by simp)
  rw [mapGet_of_mem _ hnd, mapGet_mapSetAll] at h
  simp only [mapGet, Option.or_none] at h
  exact ((find?_reverse_eq_some l k v).1 h).1

theorem nodup_ids_values (l : List SeriesData) :
    ((mapValues (mapSetAll [] l)).map SeriesData.ID).Nodup := by
  have hnd := nodup_keys_mapSetAll l [] (by simp)
  rw [mapValues_eq, List.map_map]
  have : (mapSetAll [] l).map (SeriesData.ID ∘ Prod.snd) = (mapSetAll [] l).map Prod.fst :=
    List.map_congr_left (fun kv hkv => keyed_mapSetAll l kv hkv)
  rw [this]
  exact hnd

theorem mem_ids_values (l : List SeriesData) (k : String) :
    k ∈ (mapValues (mapSetAll [] l)).map SeriesData.ID ↔ ∃ s ∈ l, s.ID = k := by
  rw [List.mem_map]
  constructor
  · rintro ⟨e, he, rfl⟩
    exact ⟨e, isLastOf_mem l e ((mem_values_mapSetAll l e).1 he), rfl⟩
  · rintro ⟨s, hs, rfl⟩
    obtain ⟨e, he, hlast⟩ := exists_isLastOf l s hs
    exact ⟨e, (mem_values_mapSetAll l e).2 hlast, he⟩

/-- C7: when every fetch succeeds, `fetchAllSeries` returns a snapshot with
pairwise distinct ids, whose ids are exactly the ids that occur in some
partition, and each returned entity is the one of the last partition, in the
order of `days`, that has its id (the last one with that id in that
partition). -/
theorem fetchAllSeries_merge (fetch : String → Except String (List SeriesData))
    (parts : String → List SeriesData) (h : ∀ d ∈ days, fetch d = .ok (parts d)) :
    ∃ result, fetchAllSeries fetch = .ok result ∧
      (result.map SeriesData.ID).Nodup ∧
      (∀ k, k ∈ result.map SeriesData.ID ↔ ∃ d ∈ days, ∃ s ∈ parts d, s.ID = k) ∧
      (∀ e ∈ result, ∃ pre p post, days.map parts = pre ++ p :: post ∧ IsLastOf p e ∧
        ∀ q ∈ post, ∀ s ∈ q, s.ID ≠ e.ID) := by
  refine ⟨mapValues (mapSetAll [] (days.map parts).flatten), ?_, ?_, ?_, ?_⟩
  · rw [fetchAllSeries, fetchLoop_ok fetch parts days [] h]
  · exact nodup_ids_values _
  · intro k
    rw [mem_ids_values]
    constructor
    · rintro ⟨s, hs, hk⟩
      obtain ⟨p, hp, hsp⟩ := List.mem_flatten.1 hs
      obtain ⟨d, hd, rfl⟩ := List.mem_map.1 hp
      exact ⟨d, hd, s, hsp, hk⟩
    · rintro ⟨d, hd, s, hs, hk⟩
      exact ⟨s, List.mem_flatten.2 ⟨parts d, List.mem_map_of_mem parts hd, hs⟩, hk⟩
  · intro e he
    exact isLastOf_flatten _ e ((mem_values_mapSetAll _ e).1 he)

/-- C7 at partitions in which the id `b` occurs on the first two days: the
entity of the second day is returned. -/
theorem fetchAllSeries_merge_witness :
    (∃ result, fetchAllSeries (fun day => .ok (overlappingParts day)) = .ok result ∧
      result.Perm
        [scenarioA, { ID := "b", URL := "https://site/series/b", Title := "B2" }, scenarioC]) ∧
    ∃ result, fetchAllSeries (fun day => .ok (overlappingParts day)) = .ok result ∧
      (result.map SeriesData.ID).Nodup ∧
      (∀ k, k ∈ result.map SeriesData.ID ↔
        ∃ d ∈ days, ∃ s ∈ overlappingParts d, s.ID = k) ∧
      (∀ e ∈ result, ∃ pre p post, days.map overlappingParts = pre ++ p :: post ∧
        IsLastOf p e ∧ ∀ q ∈ post, ∀ s ∈ q, s.ID ≠ e.ID) :=
  ⟨⟨_, rfl, List.Perm.refl _⟩,
    fetchAllSeries_merge (fun day => .ok (overlappingParts day)) overlappingParts
      (fun _ _ => rfl)⟩

end Kimicomi
